import Mathlib

/-
Verification development for the siem-query-utils repository.

Shallow embedding conventions:
- Python strings are modelled as lists of characters (abbrev Str); the
  corresponding String literals are written as "...".data.
- Machine time (time.monotonic) is modelled as an explicit Nat parameter.
- Subprocess / HTTP outcomes are modelled as Except / Option values; a
  caught-and-logged exception corresponds to the Except.error branch.
- Module-level mutable state (the shared default config dict of
  load_session) is threaded explicitly as a state argument.
-/

/-- Python str is modelled as a list of characters. -/
abbrev Str := List Char

/-- Python str.lower, used by filter_headers via key.lower(). -/
def lowerStr (s : Str) : Str := s.map Char.toLower

/-- Python code-point comparison of characters, as used by str ordering. -/
def charLt (a b : Char) : Bool := a.toNat < b.toNat

/-- Lexicographic less-or-equal on strings by code point, the order used by
the built-in sorted() on a list of strings. -/
def lexLe : Str → Str → Bool
  | [], _ => true
  | _ :: _, [] => false
  | a :: as, b :: bs => if a = b then lexLe as bs else charLt a b

/-- Insertion of one element into a sorted list, helper for pySorted. -/
def insertSorted {α : Type} (le : α → α → Bool) (x : α) : List α → List α
  | [] => [x]
  | y :: ys => if le x y then x :: y :: ys else y :: insertSorted le x ys

/-- Model of the built-in sorted(): a deterministic comparison sort.  For the
total order used here (code-point order on strings) its output agrees with
the Python sort on every input, duplicates included. -/
def pySorted {α : Type} (le : α → α → Bool) (l : List α) : List α :=
  l.foldr (insertSorted le) []

/-
TTL cache of main.py (def cache): an lru_cache-memoized inner function
stores Result(value, death) with death = now + ttl; the wrapper recomputes
in place when result.death < now.  One cache slot (one key) is modelled;
the compute function receives the number of invocations made so far, so
that invocation counting is visible in the returned triple.
-/

/-- Result object of the main.py cache decorator: slots value and death. -/
structure CacheResult (V : Type) where
  value : V
  death : Nat
deriving DecidableEq

/-- One read through the main.py cache wrapper for a fixed key.
Arguments: the wrapped function (applied to the current invocation count),
the invocation count so far, the cached slot for this key (none = miss),
the current monotonic time and the ttl.  Returns the value handed to the
caller, the new invocation count and the new slot. -/
def cacheRead {V : Type} (func : Nat → V) (calls : Nat)
    (slot : Option (CacheResult V)) (now ttl : Nat) :
    V × Nat × Option (CacheResult V) :=
  match slot with
  | none =>
      let v := func calls
      (v, calls + 1, some ⟨v, now + ttl⟩)
  | some r =>
      if r.death < now then
        let v := func calls
        (v, calls + 1, some ⟨v, now + ttl⟩)
      else
        (r.value, calls, some r)

/-
External command client of main.py (def azcli) and the fan-out aggregation
loop of analyticsQuery.  A finished chunk future is either an error (the
subprocess or the result() call raised) or the value returned by azcli:
none when the subprocess printed nothing, some rows otherwise.
-/

/-- Parsing step of main.py azcli: empty subprocess output maps to the
explicit no-result value None, anything else is parsed as JSON. -/
def azcli {α : Type} (stdout : String) (parse : String → List α) :
    Option (List α) :=
  if stdout = "" then none else some (parse stdout)

/-- Rows a finished chunk future contributes to the aggregate: rows of a
successful non-empty chunk; nothing for an errored chunk; nothing for a
chunk whose azcli call returned None (output += None raises TypeError,
which the except branch catches and logs). -/
def successRows {α : Type} (f : Except String (Option (List α))) : List α :=
  match f with
  | .ok (some rows) => rows
  | .ok none => []
  | .error _ => []

/-- Aggregation loop of analyticsQuery: output starts empty and each future
is folded in submission order; the try block extends output on success and
the except branch drops the chunk. -/
def aggregate {α : Type} (futures : List (Except String (Option (List α)))) :
    List α :=
  futures.foldl
    (fun out f =>
      match f with
      | .ok (some rows) => out ++ rows
      | .ok none => out
      | .error _ => out)
    []

/-
Chunking of main.py analyticsQuery:
  chunkSize = 30
  chunks = [sorted(workspaces)[x:x+chunkSize] for x in range(0, len(workspaces), chunkSize)]
The slice comprehension is the recursive take/drop decomposition below.
-/

/-- Batch limit of the control plane, chunkSize in analyticsQuery. -/
def chunkSize : Nat := 30

/-- Structural helper for the slice comprehension: fuel bounds the number
of slices and is always called with fuel at least the list length, so the
zero-fuel branch is unreachable. -/
def chunkListAux {α : Type} : Nat → List α → List (List α)
  | _, [] => []
  | 0, _ :: _ => []
  | fuel + 1, x :: xs =>
      ((x :: xs).take chunkSize) :: chunkListAux fuel ((x :: xs).drop chunkSize)

/-- Successive slices of length chunkSize, the list comprehension of
analyticsQuery. -/
def chunkList {α : Type} (l : List α) : List (List α) :=
  chunkListAux l.length l

/-- Chunk layout of analyticsQuery: the workspace list is sorted, then cut
into slices of at most chunkSize ids. -/
def analyticsChunks (workspaces : List Str) : List (List Str) :=
  chunkList (pySorted lexLe workspaces)

/-- Command line built for one chunk by analyticsQuery: the first id of the
chunk is the --workspace argument and the remaining ids follow a
--workspaces flag when the chunk has more than one id. -/
def chunkCmd (chunk : List Str) (query timespan : Str) : List Str :=
  ["monitor".data, "log-analytics".data, "query".data, "--workspace".data,
      chunk.headD [], "--analytics-query".data, query, "--timespan".data,
      timespan]
    ++ (if 1 < chunk.length then "--workspaces".data :: chunk.drop 1 else [])

/-
Header scrubbing of proxy.py filter_headers: a header survives exactly when
no denylisted prefix matches the lowercased header name (the for/else loop:
break on a match excludes the header, the else branch keeps it).
-/

/-- Default denylist of filter_headers for inbound request headers. -/
def filteredPrefixes : List Str :=
  ["host".data, "cookie".data, "x-ms-".data, "x-arr-".data,
   "disguised-host".data, "referer".data]

/-- Response header denylist used by upstream before relaying. -/
def stripOutputHeaders : List Str :=
  ["set-cookie".data, "transfer-encoding".data, "content-length".data,
   "server".data, "date".data, "connection".data]

/-- Embedding of proxy.py filter_headers.  The denylist defaults to
filteredPrefixes at the call site for inbound headers and is passed as
stripOutputHeaders for response headers. -/
def filter_headers (headers : List (Str × Str)) (denylist : List Str) :
    List (Str × Str) :=
  headers.filter
    (fun kv => !(denylist.any (fun px => px.isPrefixOf (lowerStr kv.1))))

/-
Redirect handling of proxy.py upstream:
  base_url = str(client.base_url) + "/"
  location startswith base_url      -> rewrite to root_path + "/" + prefix + "/" + rest
  elif location startswith "http"   -> HTTPException 403
  else                              -> location is relayed unchanged
The replace(base_url, "", 1) call removes the first occurrence of base_url;
under the startswith guard that occurrence is the prefix itself, so the
rewrite drops exactly base_url.length characters.
-/

/-- Location header treatment of the upstream dispatcher: ok carries the
location relayed to the caller, error carries the HTTP status raised. -/
def handleLocation (baseUrl rootPath pfx location : Str) : Except Nat Str :=
  let base := baseUrl ++ "/".data
  if base.isPrefixOf location then
    .ok (rootPath ++ "/".data ++ pfx ++ "/".data ++ location.drop base.length)
  else if ("http".data).isPrefixOf location then
    .error 403
  else
    .ok location

/-
Session store of proxy.py / azcli.py (both files hold an identical
load_session).  Python-level JSON values appearing in session configs are
either strings or one-level string objects (base_url plus optional
params/headers/cookies sub-dicts of strings).  The module-level expression
json.loads(default_session) is evaluated once when the function object is
created and the very same dict is passed to config.update on every call,
so the current content of that dict is an explicit state argument here.
The sha256-of-base64-of-sorted-keys-dump key is represented by the
canonical sorted-key form of the config itself: both base64 and sha256 are
injections of the canonical serialization, so key equality in the code is
equality of canonical forms here.
-/

/-- JSON values occurring in session configuration dicts. -/
inductive JVal where
  | str : String → JVal
  | obj : List (String × String) → JVal
deriving DecidableEq

/-- Session configuration dict: insertion-ordered key/value pairs with
unique keys, as a Python dict. -/
abbrev Config := List (String × JVal)

/-- Python dict.update: keys already present are overwritten in place,
new keys are appended in iteration order. -/
def dictUpdate (c b : Config) : Config :=
  b.foldl
    (fun acc kv =>
      if acc.any (fun p => p.1 == kv.1) then
        acc.map (fun p => if p.1 == kv.1 then kv else p)
      else
        acc ++ [kv])
    c

/-- Python str.startswith on real String values. -/
def pyStartswith (s px : String) : Bool := px.data.isPrefixOf s.data

/-- Lookup of data["base_url"] inside a proxy sub-config; none when the
key is absent or the sub-config is not an object (a KeyError or TypeError
in the Python code). -/
def getBaseUrl : JVal → Option String
  | .obj kvs => (kvs.find? (fun p => p.1 == "base_url")).map (fun p => p.2)
  | .str _ => none

/-- Name under which a proxy target is published in the apis table:
item.replace("proxy_", "", 1).  Under the startswith guard the first
occurrence of the marker is the 6-character prefix itself. -/
def apiName (k : String) : String := String.mk (k.data.drop 6)

/-- Validation loop of load_session: iterate the merged config in order;
for every key marked as a proxy target assert that an upstream client can
be constructed (clientOk) and read its base_url; the first failure raises
out of load_session.  On success the apis table is produced in config
order. -/
def buildApis (clientOk : JVal → Bool) : Config → Except Unit (List (String × String))
  | [] => .ok []
  | (k, v) :: rest =>
      if pyStartswith k "proxy_" then
        if clientOk v then
          match getBaseUrl v with
          | some url => (buildApis clientOk rest).map (fun apis => (apiName k, url) :: apis)
          | none => .error ()
        else .error ()
      else buildApis clientOk rest

/-- Canonical key-sorted form of a config: the content from which the
base64 blob and the sha256 session key are computed. -/
def canonicalKey (c : Config) : Config :=
  pySorted (fun p q => lexLe p.1.data q.1.data) c

/-- Session value returned by load_session: the merged config, the
content-derived key and the apis table. -/
structure Session where
  session : Config
  key : Config
  apis : List (String × String)
deriving DecidableEq

/-- Failure modes of load_session: the decode try/except raises
HTTPException 500, a failed proxy validation raises out of the function
(AssertionError or KeyError). -/
inductive LoadErr where
  | decodeError : LoadErr
  | validationError : LoadErr
deriving DecidableEq

/-- Hard-coded default_session configuration of proxy.py / azcli.py. -/
def defaultConfig : Config :=
  [("proxy_httpbin", .obj [("base_url", "https://httpbin.org")]),
   ("proxy_jupyter", .obj [("base_url", "https://wagov.github.io/wasoc-jupyterlite")]),
   ("main_path", .str "/jupyter/lab/index.html")]

/-- Embedding of load_session.  blob is the decoded base64/JSON payload
(none = malformed input, the except branch).  config is the current
content of the module-level default dict, which the call mutates through
dict.update; the mutated dict is returned as the second component even
when validation fails afterwards. -/
def load_session (clientOk : JVal → Bool) (blob : Option Config)
    (config : Config) : Except LoadErr Session × Config :=
  match blob with
  | none => (.error .decodeError, config)
  | some b =>
      let merged := dictUpdate config b
      match buildApis clientOk merged with
      | .ok apis =>
          (.ok ⟨merged, canonicalKey merged, apis⟩, merged)
      | .error _ => (.error .validationError, merged)

/-
Capacity eviction.  main.py builds its cache on functools.lru_cache
(maxsize is the decorator parameter, default 2000): a hit moves the key to
the most-recently-used end and a full insert discards the
least-recently-used entry.  azcli.py line 35 instead builds
cacheout.Cache(maxsize=25600, ttl=300): the cacheout base Cache class is
documented as a FIFO cache - a get does not touch recency and a full
insert discards the earliest-inserted entry.  Both stores are modelled as
association lists ordered oldest-first.
-/

/-- Hit on a functools.lru_cache store: the entry is moved to the
most-recently-used end. -/
def lruGet {V : Type} (st : List (Nat × V)) (k : Nat) :
    Option V × List (Nat × V) :=
  match st.find? (fun p => p.1 == k) with
  | some p => (some p.2, st.filter (fun q => !(q.1 == k)) ++ [p])
  | none => (none, st)

/-- Insert of a new key into a functools.lru_cache store: at capacity the
front entry (least recently used) is discarded. -/
def lruInsert {V : Type} (maxsize : Nat) (st : List (Nat × V)) (k : Nat) (v : V) :
    List (Nat × V) :=
  if st.any (fun p => p.1 == k) then
    st.map (fun p => if p.1 == k then (k, v) else p)
  else if maxsize ≤ st.length then
    st.drop 1 ++ [(k, v)]
  else
    st ++ [(k, v)]

/-- Hit on a cacheout.Cache store: no recency update at all. -/
def cacheoutGet {V : Type} (st : List (Nat × V)) (k : Nat) : Option V :=
  (st.find? (fun p => p.1 == k)).map (fun p => p.2)

/-- Insert into a cacheout.Cache store: at capacity the earliest-inserted
entry is discarded (FIFO), regardless of accesses. -/
def cacheoutInsert {V : Type} (maxsize : Nat) (st : List (Nat × V)) (k : Nat) (v : V) :
    List (Nat × V) :=
  if st.any (fun p => p.1 == k) then
    st.map (fun p => if p.1 == k then (k, v) else p)
  else if maxsize ≤ st.length then
    st.drop 1 ++ [(k, v)]
  else
    st ++ [(k, v)]

/-- Maxsize of the cacheout.Cache instantiated at azcli.py line 35. -/
def azcliCacheMaxsize : Nat := 25600

/-- Fully populated cacheout store holding keys 0..n-1 in insertion
order. -/
def fifoState (n : Nat) : List (Nat × Nat) :=
  (List.range n).map (fun i => (i, 0))

/-
Workspace directory and simpleQuery of main.py.  A Workspace is the
namedtuple (subscription, customerId, resourceGroup, name); str(workspace)
is the namedtuple repr.  simpleQuery walks the directory listing and
returns the analytics query result of the first workspace whose repr makes
str.find(name) truthy, namely any value other than 0; when the loop
exhausts the listing the function falls through and returns None.
-/

/-- Workspace namedtuple of main.py. -/
structure Workspace where
  subscription : String
  customerId : String
  resourceGroup : String
  name : String
deriving DecidableEq

/-- Repr of the Workspace namedtuple, the value of str(workspace).  Field
values are assumed free of quote and backslash characters, so the Python
repr of each field is the field between two apostrophes. -/
def pyRepr (w : Workspace) : String :=
  "Workspace(subscription=\x27" ++ w.subscription ++
  "\x27, customerId=\x27" ++ w.customerId ++
  "\x27, resourceGroup=\x27" ++ w.resourceGroup ++
  "\x27, name=\x27" ++ w.name ++ "\x27)"

/-- Index of the first occurrence of sub inside a character list. -/
def firstOccur (sub : Str) : Str → Option Nat
  | [] => if sub.isEmpty then some 0 else none
  | c :: rest =>
      if sub.isPrefixOf (c :: rest) then some 0
      else (firstOccur sub rest).map (fun n => n + 1)

/-- Python str.find: lowest index where sub occurs, -1 when absent. -/
def pyFind (s sub : String) : Int :=
  match firstOccur sub.data s.data with
  | some n => (n : Int)
  | none => -1

/-- Embedding of main.py simpleQuery.  runQ stands for
analyticsQuery([workspace.customerId], query); the loop body returns at
the first workspace whose repr gives a truthy find(name). -/
def simpleQuery {α : Type} (runQ : String → String → List α)
    (query name : String) : List Workspace → Option (List α)
  | [] => none
  | w :: rest =>
      if pyFind (pyRepr w) name != 0 then some (runQ query w.customerId)
      else simpleQuery runQ query name rest

/-- Blob with one extra key, used to demonstrate config state leakage. -/
def blobExtra : Config := [("extra", JVal.str "x")]

theorem insertSorted_perm {α : Type} (le : α → α → Bool) (x : α) (l : List α) :
    List.Perm (insertSorted le x l) (x :: l) := by
  induction l with
  | nil => simp [insertSorted]
  | cons y ys ih =>
      simp only [insertSorted]
      split
      · exact List.Perm.refl _
      · exact List.Perm.trans (List.Perm.cons y ih) (List.Perm.swap x y ys)

theorem pySorted_perm {α : Type} (le : α → α → Bool) (l : List α) :
    List.Perm (pySorted le l) l := by
  induction l with
  | nil => simp [pySorted]
  | cons x xs ih =>
      simp only [pySorted, List.foldr]
      exact List.Perm.trans (insertSorted_perm le x _) (List.Perm.cons x ih)

theorem aggregate_foldl_eq {α : Type}
    (futures : List (Except String (Option (List α)))) (out : List α) :
    futures.foldl
      (fun out f =>
        match f with
        | .ok (some rows) => out ++ rows
        | .ok none => out
        | .error _ => out)
      out = out ++ (futures.map successRows).flatten := by
  induction futures generalizing out with
  | nil => simp
  | cons f fs ih =>
      cases f with
      | ok o =>
          cases o with
          | some rows => simp [List.foldl, ih, successRows, List.append_assoc]
          | none => simp [List.foldl, ih, successRows]
      | error e => simp [List.foldl, ih, successRows]

theorem aggregate_eq_flatten {α : Type}
    (futures : List (Except String (Option (List α)))) :
    aggregate futures = (futures.map successRows).flatten := by
  simp [aggregate, aggregate_foldl_eq]

theorem chunkListAux_flatten {α : Type} :
    ∀ (fuel : Nat) (l : List α), l.length ≤ fuel →
      (chunkListAux fuel l).flatten = l := by
  intro fuel
  induction fuel with
  | zero =>
      intro l h
      cases l with
      | nil => rfl
      | cons x xs => simp at h
  | succ f ih =>
      intro l h
      cases l with
      | nil => rfl
      | cons x xs =>
          simp only [chunkListAux, List.flatten_cons]
          rw [ih ((x :: xs).drop chunkSize)
            (by simp only [List.length_drop, List.length_cons, chunkSize]
                simp only [List.length_cons] at h; omega)]
          exact List.take_append_drop _ _

theorem chunkList_flatten {α : Type} (l : List α) :
    (chunkList l).flatten = l :=
  chunkListAux_flatten l.length l (Nat.le_refl _)

theorem chunkListAux_length {α : Type} :
    ∀ (fuel : Nat) (l : List α), l.length ≤ fuel →
      (chunkListAux fuel l).length = (l.length + 29) / 30 := by
  intro fuel
  induction fuel with
  | zero =>
      intro l h
      cases l with
      | nil => simp [chunkListAux]
      | cons x xs => simp at h
  | succ f ih =>
      intro l h
      cases l with
      | nil => simp [chunkListAux]
      | cons x xs =>
          simp only [chunkListAux, List.length_cons]
          rw [ih ((x :: xs).drop chunkSize)
            (by simp only [List.length_drop, List.length_cons, chunkSize]
                simp only [List.length_cons] at h; omega)]
          simp only [List.length_drop, List.length_cons, chunkSize]
          omega

theorem chunkList_length {α : Type} (l : List α) :
    (chunkList l).length = (l.length + 29) / 30 :=
  chunkListAux_length l.length l (Nat.le_refl _)

theorem chunkListAux_sizes {α : Type} :
    ∀ (fuel : Nat) (l : List α), ∀ c ∈ chunkListAux fuel l,
      c.length ≤ 30 ∧ c ≠ [] := by
  intro fuel
  induction fuel with
  | zero =>
      intro l c hc
      cases l with
      | nil => cases hc
      | cons x xs => cases hc
  | succ f ih =>
      intro l c hc
      cases l with
      | nil => cases hc
      | cons x xs =>
          simp only [chunkListAux] at hc
          cases hc with
          | head =>
              refine ⟨?_, ?_⟩
              · simp [chunkSize]
              · simp [chunkSize]
          | tail _ h => exact ih _ c h

theorem chunkList_sizes {α : Type} (l : List α) :
    ∀ c ∈ chunkList l, c.length ≤ 30 ∧ c ≠ [] :=
  chunkListAux_sizes l.length l

theorem chunkList_disjoint {α : Type} (l : List α) (h : l.Nodup) :
    (chunkList l).Pairwise List.Disjoint := by
  have hflat : (chunkList l).flatten.Nodup := by
    rw [chunkList_flatten]; exact h
  exact (List.nodup_flatten.mp hflat).2

theorem isPrefixOf_append_self {α : Type} [DecidableEq α] (l t : List α) :
    l.isPrefixOf (l ++ t) = true := by
  induction l with
  | nil => cases t <;> rfl
  | cons x xs ih => simp [List.isPrefixOf, ih]

theorem buildApis_ok {clientOk : JVal → Bool} :
    ∀ (c : Config) (apis : List (String × String)),
      buildApis clientOk c = .ok apis →
      ∀ kv ∈ c, pyStartswith kv.1 "proxy_" = true →
        clientOk kv.2 = true ∧
          ∃ url, getBaseUrl kv.2 = some url ∧ (apiName kv.1, url) ∈ apis := by
  intro c
  induction c with
  | nil => intro apis _ kv hkv; cases hkv
  | cons hd rest ih =>
      intro apis hok kv hkv hpx
      obtain ⟨k, v⟩ := hd
      simp only [buildApis] at hok
      by_cases hk : pyStartswith k "proxy_" = true
      · rw [if_pos hk] at hok
        by_cases hcl : clientOk v = true
        · rw [if_pos hcl] at hok
          cases hurl : getBaseUrl v with
          | none => rw [hurl] at hok; cases hok
          | some url =>
              rw [hurl] at hok
              cases hrest : buildApis clientOk rest with
              | error e => rw [hrest] at hok; cases hok
              | ok apisRest =>
                  rw [hrest] at hok
                  simp only [Except.map] at hok
                  cases hok
                  cases hkv with
                  | head =>
                      exact ⟨hcl, url, hurl, List.mem_cons_self _ _⟩
                  | tail _ hmem =>
                      obtain ⟨h1, u, h2, h3⟩ := ih apisRest hrest kv hmem hpx
                      exact ⟨h1, u, h2, List.mem_cons_of_mem _ h3⟩
        · rw [if_neg hcl] at hok; cases hok
      · rw [if_neg hk] at hok
        cases hkv with
        | head => exact absurd hpx hk
        | tail _ hmem => exact ih apis hok kv hmem hpx

theorem buildApis_err {clientOk : JVal → Bool} :
    ∀ (c : Config) (kv : String × JVal), kv ∈ c →
      pyStartswith kv.1 "proxy_" = true →
      (clientOk kv.2 = false ∨ getBaseUrl kv.2 = none) →
      buildApis clientOk c = .error () := by
  intro c
  induction c with
  | nil => intro kv hkv; cases hkv
  | cons hd rest ih =>
      intro kv hkv hpx hbad
      obtain ⟨k, v⟩ := hd
      simp only [buildApis]
      cases hkv with
      | head =>
          rw [if_pos hpx]
          cases hbad with
          | inl hcl => simp [hcl]
          | inr hurl =>
              by_cases hcl : clientOk v = true
              · simp [hcl, hurl]
              · simp [hcl]
      | tail _ hmem =>
          have herr := ih kv hmem hpx hbad
          by_cases hk : pyStartswith k "proxy_" = true
          · rw [if_pos hk]
            by_cases hcl : clientOk v = true
            · rw [if_pos hcl]
              cases hurl : getBaseUrl v with
              | none => rfl
              | some url => rw [herr]; rfl
            · rw [if_neg hcl]
          · rw [if_neg hk]; exact herr

theorem fifoState_length (n : Nat) : (fifoState n).length = n := by
  simp [fifoState]

theorem fifoState_succ (n : Nat) :
    fifoState (n + 1) = (0, 0) :: ((List.range n).map (fun i => (i + 1, 0))) := by
  simp only [fifoState, List.range_succ_eq_map, List.map_cons, List.map_map]
  rfl

theorem fifoState_head (n : Nat) (h : 1 ≤ n) :
    (fifoState n).head? = some (0, 0) := by
  cases n with
  | zero => omega
  | succ m => rw [fifoState_succ]; rfl

theorem fifoState_find_zero (n : Nat) (h : 1 ≤ n) :
    (fifoState n).find? (fun p => p.1 == 0) = some (0, 0) := by
  cases n with
  | zero => omega
  | succ m => rw [fifoState_succ]; rfl

theorem fifoState_no_key (n m : Nat) (h : n ≤ m) :
    (fifoState n).any (fun p => p.1 == m) = false := by
  simp only [fifoState, List.any_eq_false]
  intro p hp
  simp only [List.mem_map, List.mem_range] at hp
  obtain ⟨i, hi, rfl⟩ := hp
  simp only [beq_iff_eq]
  omega

theorem fifoState_drop_keys (n : Nat) :
    ∀ p ∈ (fifoState n).drop 1, 1 ≤ p.1 := by
  cases n with
  | zero => intro p hp; simp [fifoState] at hp
  | succ m =>
      rw [fifoState_succ]
      intro p hp
      simp only [List.drop_succ_cons, List.drop_zero, List.mem_map] at hp
      obtain ⟨i, _, rfl⟩ := hp
      omega

theorem pyFind_neg_one_or_nonneg (s sub : String) :
    pyFind s sub = -1 ∨ 0 ≤ pyFind s sub := by
  unfold pyFind
  cases firstOccur sub.data s.data with
  | none => left; rfl
  | some n => right; exact Int.ofNat_nonneg n

/-- C4 counterexample: on a list of 31 copies of one workspace id the
fan-out produces two chunks and the id appears in both, so the claimed
property "no id appears in two chunks" fails for lists with duplicates
(sorted() keeps duplicates and the slices cut across them). -/
theorem chunking_duplicate_counterexample :
    analyticsChunks (List.replicate 31 "w1".data)
      = [List.replicate 30 "w1".data, ["w1".data]] ∧
    "w1".data ∈ List.replicate 30 "w1".data ∧
    "w1".data ∈ ["w1".data] ∧
    List.replicate 30 "w1".data ≠ ["w1".data] := by decide

/-- C4 (amended): for every workspace list the fan-out sorts the ids and
partitions them into ceil(N/30) nonempty chunks of at most 30 ids whose
concatenation is a permutation of the input (so the union as sets equals
the input set); when the input ids are pairwise distinct no id appears in
two chunks; each chunk command carries the first chunk id as the
--workspace target and the remaining in-chunk ids after --workspaces. -/
theorem chunking_amended (workspaces : List Str) (query timespan : Str) :
    (analyticsChunks workspaces).length = (workspaces.length + 29) / 30 ∧
    (∀ c ∈ analyticsChunks workspaces, c.length ≤ 30 ∧ c ≠ []) ∧
    List.Perm (analyticsChunks workspaces).flatten workspaces ∧
    (workspaces.Nodup → (analyticsChunks workspaces).Pairwise List.Disjoint) ∧
    (∀ c ∈ analyticsChunks workspaces,
      (chunkCmd c query timespan).getD 4 [] = c.headD [] ∧
      (1 < c.length →
        (chunkCmd c query timespan).drop 9 = "--workspaces".data :: c.drop 1) ∧
      (c.length ≤ 1 → (chunkCmd c query timespan).length = 9)) := by
  have hperm := pySorted_perm lexLe workspaces
  refine ⟨?_, chunkList_sizes _, ?_, ?_, ?_⟩
  · rw [analyticsChunks, chunkList_length, hperm.length_eq]
  · rw [analyticsChunks, chunkList_flatten]
    exact hperm
  · intro hnd
    have hnds : (pySorted lexLe workspaces).Nodup := hperm.nodup_iff.mpr hnd
    have hflat : (analyticsChunks workspaces).flatten.Nodup := by
      rw [analyticsChunks, chunkList_flatten]; exact hnds
    exact (List.nodup_flatten.mp hflat).2
  · intro c _
    refine ⟨rfl, ?_, ?_⟩
    · intro hlen
      rw [chunkCmd, if_pos hlen]
      rfl
    · intro hlen
      rw [chunkCmd, if_neg (by omega)]
      rfl

/-- C4 witness: concrete instance with two ids. -/
theorem chunking_amended_witness :
    (analyticsChunks ["b1".data, "a1".data]).length = (2 + 29) / 30 ∧
    (["a1".data, "b1".data].length ≤ 30 ∧ ["a1".data, "b1".data] ≠ []) ∧
    (analyticsChunks ["b1".data, "a1".data]).Pairwise List.Disjoint ∧
    (chunkCmd ["a1".data, "b1".data] "q".data "P7D".data).drop 9
      = "--workspaces".data :: ["b1".data] :=
  ⟨(chunking_amended ["b1".data, "a1".data] "q".data "P7D".data).1,
   (chunking_amended ["b1".data, "a1".data] "q".data "P7D".data).2.1
     (["a1".data, "b1".data]) (by decide),
   (chunking_amended ["b1".data, "a1".data] "q".data "P7D".data).2.2.2.1
     (by decide),
   ((chunking_amended ["b1".data, "a1".data] "q".data "P7D".data).2.2.2.2
     (["a1".data, "b1".data]) (by decide)).2.1 (by decide)⟩

/-- C5: per-chunk failure tolerance of the aggregation loop: the aggregate
always equals the in-order concatenation of the rows contributed by
successful chunks (failed chunks are dropped by the except branch, the
fold never raises), and when every chunk future failed the aggregate is
the empty list rather than an error. -/
theorem fanout_failure_tolerance {α : Type}
    (futures : List (Except String (Option (List α)))) :
    aggregate futures = (futures.map successRows).flatten ∧
    ((∀ f ∈ futures, ∃ e, f = Except.error e) → aggregate futures = []) := by
  refine ⟨aggregate_eq_flatten futures, ?_⟩
  intro h
  rw [aggregate_eq_flatten]
  apply List.flatten_eq_nil_iff.mpr
  intro x hx
  obtain ⟨f, hf, rfl⟩ := List.mem_map.mp hx
  obtain ⟨e, rfl⟩ := h f hf
  rfl

/-- C5 witness: a mixed run keeps only successful rows in order; an
all-failed run aggregates to the empty list. -/
theorem fanout_failure_tolerance_witness :
    aggregate [Except.error "chunk1 failed", Except.ok (some [1, 2]),
        Except.error "chunk3 failed", Except.ok (some [3])] = [1, 2, 3] ∧
    aggregate [(Except.error "a" : Except String (Option (List Nat))),
        Except.error "b"] = [] :=
  ⟨by
     rw [(fanout_failure_tolerance [Except.error "chunk1 failed",
       Except.ok (some [1, 2]), Except.error "chunk3 failed",
       Except.ok (some [3])]).1]
     rfl,
   (fanout_failure_tolerance
       [(Except.error "a" : Except String (Option (List Nat))),
        Except.error "b"]).2
     (fun f hf => by
       rcases List.mem_cons.mp hf with rfl | hf2
       · exact ⟨"a", rfl⟩
       · rcases List.mem_cons.mp hf2 with rfl | hf3
         · exact ⟨"b", rfl⟩
         · cases hf3)⟩

/-- C9: a chunk whose CLI invocation produced empty output yields the
explicit no-result value None from azcli, and the aggregation treats an
ok-None future exactly like an errored future (output += None raises the
caught TypeError), so the aggregate rows come only from chunks with
non-empty parsed output and an empty-output chunk is indistinguishable
from a failed chunk in the returned value. -/
theorem empty_output_chunk_like_failure {α : Type} (parse : String → List α)
    (pre post : List (Except String (Option (List α)))) (e : String) :
    azcli "" parse = none ∧
    aggregate (pre ++ Except.ok none :: post)
      = aggregate (pre ++ Except.error e :: post) ∧
    aggregate (pre ++ Except.ok none :: post)
      = aggregate pre ++ (post.map successRows).flatten := by
  refine ⟨rfl, ?_, ?_⟩
  · rw [aggregate_eq_flatten, aggregate_eq_flatten]
    simp [successRows]
  · rw [aggregate_eq_flatten, aggregate_eq_flatten]
    simp [successRows]

/-- C6 counterexample: a read at exactly the expiry instant (entry created
at time 0 with ttl 300, read at monotonic time 300 = creation + ttl) hands
back the stale cached value 5 without one more compute invocation, because
the wrapper only recomputes when death < now is strict; the claim demands
recomputation at or after expiry, which would return 100 + 1 and bump the
invocation count to 2. -/
theorem cache_ttl_at_expiry_counterexample :
    cacheRead (fun n => 100 + n) 1 (some ⟨5, 0 + 300⟩) 300 300
      = (5, 1, some ⟨5, 0 + 300⟩) ∧
    ¬ cacheRead (fun n => 100 + n) 1 (some ⟨5, 0 + 300⟩) 300 300
      = (100 + 1, 1 + 1, some ⟨100 + 1, 300 + 300⟩) := by decide

/-- C6 (amended): a read strictly before or exactly at expiry returns the
cached value unchanged with no compute invocation; a read strictly after
expiry invokes the compute function exactly once more, overwrites the
single slot in place and returns the new value; a miss computes once and
fills the slot. -/
theorem cache_ttl_amended {V : Type} (func : Nat → V) (calls : Nat) (v : V)
    (created ttl now : Nat) :
    (now ≤ created + ttl →
      cacheRead func calls (some ⟨v, created + ttl⟩) now ttl
        = (v, calls, some ⟨v, created + ttl⟩)) ∧
    (created + ttl < now →
      cacheRead func calls (some ⟨v, created + ttl⟩) now ttl
        = (func calls, calls + 1, some ⟨func calls, now + ttl⟩)) ∧
    cacheRead func calls none now ttl
      = (func calls, calls + 1, some ⟨func calls, now + ttl⟩) := by
  refine ⟨?_, ?_, rfl⟩
  · intro h
    simp only [cacheRead]
    rw [if_neg (by omega)]
  · intro h
    simp only [cacheRead]
    rw [if_pos h]

/-- C6 witness: a fresh read at time 200 keeps the value cached at death
310; a read at time 400 recomputes once and overwrites in place. -/
theorem cache_ttl_amended_witness :
    cacheRead (fun n => n) 0 (some ⟨42, 10 + 300⟩) 200 300
      = (42, 0, some ⟨42, 10 + 300⟩) ∧
    cacheRead (fun n => n) 1 (some ⟨42, 10 + 300⟩) 400 300
      = (1, 2, some ⟨1, 400 + 300⟩) :=
  ⟨(cache_ttl_amended (fun n => n) 0 42 10 300 200).1 (by omega),
   (cache_ttl_amended (fun n => n) 1 42 10 300 400).2.1 (by omega)⟩

/-- C2 counterexample: with the httpbin upstream (base URL string
https://httpbin.org) a Location of https://httpbin.org.evil.example/steal
starts with the base URL, yet the dispatcher raises 403 instead of
rewriting it, because the code tests startswith(base_url + "/"); and a
Location that is an absolute non-http URL (ftp scheme) is relayed
unchanged rather than rejected, because the code only rejects locations
starting with "http". -/
theorem redirect_containment_counterexample :
    ("https://httpbin.org".data).isPrefixOf
        ("https://httpbin.org.evil.example/steal".data) = true ∧
    handleLocation ("https://httpbin.org".data) [] ("httpbin".data)
        ("https://httpbin.org.evil.example/steal".data) = .error 403 ∧
    handleLocation ("https://httpbin.org".data) [] ("httpbin".data)
        ("ftp://attacker.example/x".data)
      = .ok ("ftp://attacker.example/x".data) :=
  ⟨by decide, rfl, rfl⟩

/-- C2 (amended): a Location equal to the upstream base URL followed by a
slash and a relative remainder is rewritten to the inbound mount path,
a slash, the proxy name, a slash and that remainder; a Location without
that prefix that starts with "http" raises 403; every other Location is
relayed unchanged. -/
theorem redirect_containment_amended (baseUrl rootPath pfx rel loc : Str) :
    handleLocation baseUrl rootPath pfx (baseUrl ++ "/".data ++ rel)
      = .ok (rootPath ++ "/".data ++ pfx ++ "/".data ++ rel) ∧
    ((baseUrl ++ "/".data).isPrefixOf loc = false →
      ("http".data).isPrefixOf loc = true →
      handleLocation baseUrl rootPath pfx loc = .error 403) ∧
    ((baseUrl ++ "/".data).isPrefixOf loc = false →
      ("http".data).isPrefixOf loc = false →
      handleLocation baseUrl rootPath pfx loc = .ok loc) := by
  refine ⟨?_, ?_, ?_⟩
  · have hpre : (baseUrl ++ "/".data).isPrefixOf
        ((baseUrl ++ "/".data) ++ rel) = true :=
      isPrefixOf_append_self _ _
    have hdrop : ((baseUrl ++ "/".data) ++ rel).drop (baseUrl ++ "/".data).length
        = rel := List.drop_left _ _
    simp only [handleLocation, List.append_assoc] at *
    simp [hpre, hdrop]
  · intro h1 h2
    simp [handleLocation, h1, h2]
  · intro h1 h2
    simp [handleLocation, h1, h2]

/-- C2 witness: an in-origin redirect is folded back under the mount path
and proxy name; an off-origin http redirect raises 403; a relative
location passes through unchanged. -/
theorem redirect_containment_amended_witness :
    handleLocation ("https://httpbin.org".data) ("/proxy".data)
        ("httpbin".data) ("https://httpbin.org/get?x=1".data)
      = .ok ("/proxy/httpbin/get?x=1".data) ∧
    handleLocation ("https://httpbin.org".data) ("/proxy".data)
        ("httpbin".data) ("https://other.example/".data) = .error 403 ∧
    handleLocation ("https://httpbin.org".data) ("/proxy".data)
        ("httpbin".data) ("/relative/path".data)
      = .ok ("/relative/path".data) :=
  ⟨(redirect_containment_amended "https://httpbin.org".data "/proxy".data
      "httpbin".data "get?x=1".data []).1,
   (redirect_containment_amended "https://httpbin.org".data "/proxy".data
      "httpbin".data [] "https://other.example/".data).2.1
     (by decide) (by decide),
   (redirect_containment_amended "https://httpbin.org".data "/proxy".data
      "httpbin".data [] "/relative/path".data).2.2
     (by decide) (by decide)⟩

theorem filter_headers_no_match (headers : List (Str × Str))
    (denylist : List Str) (kv : Str × Str)
    (h : kv ∈ filter_headers headers denylist) :
    ∀ px ∈ denylist, px.isPrefixOf (lowerStr kv.1) = false := by
  have h2 := (List.mem_filter.mp h).2
  simp only [Bool.not_eq_eq_eq_not, Bool.not_true, List.any_eq_false] at h2
  intro px hpx
  exact Bool.eq_false_iff.mpr (fun hcontra => h2 px hpx hcontra)

/-- C3 counterexample: a request header named X-Forwarded-Host matches
none of the denylisted prefixes (host, cookie, x-ms-, x-arr-,
disguised-host, referer), so filter_headers forwards it to the upstream
unchanged, contradicting the claim that an X-Forwarded-Host-style
forwarding header is absent from what reaches the upstream. -/
theorem header_scrub_counterexample :
    filter_headers [("X-Forwarded-Host".data, "client.example".data)]
        filteredPrefixes
      = [("X-Forwarded-Host".data, "client.example".data)] := by decide

/-- C3 (amended): the headers forwarded to the upstream contain no header
whose lowercased name starts with host, cookie, x-ms-, x-arr-,
disguised-host or referer (in particular no Cookie header); a header
matching none of those prefixes (such as X-Forwarded-Host) is forwarded;
the headers relayed to the caller contain no header whose lowercased name
starts with set-cookie, server, transfer-encoding, content-length, date or
connection. -/
theorem header_scrub_amended (reqHeaders respHeaders : List (Str × Str)) :
    (∀ kv ∈ filter_headers reqHeaders filteredPrefixes,
      ("host".data).isPrefixOf (lowerStr kv.1) = false ∧
      ("cookie".data).isPrefixOf (lowerStr kv.1) = false ∧
      ("x-ms-".data).isPrefixOf (lowerStr kv.1) = false ∧
      ("x-arr-".data).isPrefixOf (lowerStr kv.1) = false ∧
      ("disguised-host".data).isPrefixOf (lowerStr kv.1) = false ∧
      ("referer".data).isPrefixOf (lowerStr kv.1) = false) ∧
    (∀ kv ∈ reqHeaders,
      filteredPrefixes.any (fun px => px.isPrefixOf (lowerStr kv.1)) = false →
      kv ∈ filter_headers reqHeaders filteredPrefixes) ∧
    (∀ kv ∈ filter_headers respHeaders stripOutputHeaders,
      ("set-cookie".data).isPrefixOf (lowerStr kv.1) = false ∧
      ("server".data).isPrefixOf (lowerStr kv.1) = false ∧
      ("transfer-encoding".data).isPrefixOf (lowerStr kv.1) = false ∧
      ("content-length".data).isPrefixOf (lowerStr kv.1) = false ∧
      ("date".data).isPrefixOf (lowerStr kv.1) = false ∧
      ("connection".data).isPrefixOf (lowerStr kv.1) = false) := by
  refine ⟨?_, ?_, ?_⟩
  · intro kv hkv
    have h := filter_headers_no_match reqHeaders filteredPrefixes kv hkv
    exact ⟨h _ (by decide), h _ (by decide), h _ (by decide), h _ (by decide),
      h _ (by decide), h _ (by decide)⟩
  · intro kv hkv hnone
    exact List.mem_filter.mpr ⟨hkv, by simp [hnone]⟩
  · intro kv hkv
    have h := filter_headers_no_match respHeaders stripOutputHeaders kv hkv
    exact ⟨h _ (by decide), h _ (by decide), h _ (by decide), h _ (by decide),
      h _ (by decide), h _ (by decide)⟩

/-- C3 witness: a concrete request keeps Accept and drops Cookie; a
concrete response header set keeps Content-Type. -/
theorem header_scrub_amended_witness :
    ("cookie".data).isPrefixOf (lowerStr ("Accept".data)) = false ∧
    ("Accept".data, "text/html".data) ∈
      filter_headers [("Cookie".data, "secret=1".data),
        ("Accept".data, "text/html".data)] filteredPrefixes ∧
    ("server".data).isPrefixOf (lowerStr ("Content-Type".data)) = false :=
  ⟨((header_scrub_amended
        [("Cookie".data, "secret=1".data), ("Accept".data, "text/html".data)]
        []).1
      ("Accept".data, "text/html".data) (by decide)).2.1,
   (header_scrub_amended
        [("Cookie".data, "secret=1".data), ("Accept".data, "text/html".data)]
        []).2.1
      ("Accept".data, "text/html".data) (by decide) (by decide),
   ((header_scrub_amended []
        [("Content-Type".data, "text/html".data)]).2.2
      ("Content-Type".data, "text/html".data) (by decide)).2.1⟩

/-- C1: the module-level default config dict is mutated in place by
config.update on every load_session call, so a later call merges its blob
onto the residue of earlier calls instead of onto the hard-coded default.
Concretely: after resolving a blob that adds key "extra", resolving the
empty blob returns a session whose merged config still contains "extra",
although the shallow merge of the empty blob onto the default config is
the default config itself.  This contradicts the claimed independence
from previously resolved blobs (and with it content-addressing of keys
across a process lifetime). -/
theorem session_state_leak :
    ((load_session (fun _ => true) (some [])
        ((load_session (fun _ => true) (some blobExtra) defaultConfig).2)).1.map
      (fun s => s.session))
      = Except.ok (defaultConfig ++ [("extra", JVal.str "x")]) ∧
    dictUpdate defaultConfig [] = defaultConfig ∧
    defaultConfig ++ [("extra", JVal.str "x")] ≠ defaultConfig :=
  ⟨rfl, rfl, by decide⟩

/-- C8: session validation is atomic.  When load_session returns a
session, every proxy-marked entry of the merged config passed client
construction and contributed its base_url to the apis table; when any
proxy-marked entry fails client construction or lacks a base_url, the
whole load fails with a validation error and no session value is
returned; a blob that fails base64/JSON decoding fails with the decode
error. -/
theorem session_validation_atomic (clientOk : JVal → Bool) (b cfg : Config) :
    (∀ s, (load_session clientOk (some b) cfg).1 = .ok s →
      ∀ kv ∈ s.session, pyStartswith kv.1 "proxy_" = true →
        clientOk kv.2 = true ∧
          ∃ url, getBaseUrl kv.2 = some url ∧ (apiName kv.1, url) ∈ s.apis) ∧
    (∀ kv ∈ dictUpdate cfg b, pyStartswith kv.1 "proxy_" = true →
      (clientOk kv.2 = false ∨ getBaseUrl kv.2 = none) →
      (load_session clientOk (some b) cfg).1 = .error .validationError) ∧
    (load_session clientOk none cfg).1 = .error .decodeError := by
  refine ⟨?_, ?_, rfl⟩
  · intro s hs kv hkv hpx
    simp only [load_session] at hs
    cases hb : buildApis clientOk (dictUpdate cfg b) with
    | error e => rw [hb] at hs; cases hs
    | ok apis =>
        rw [hb] at hs
        simp only [Except.ok.injEq] at hs
        subst hs
        exact buildApis_ok _ _ hb kv hkv hpx
  · intro kv hkv hpx hbad
    have herr := buildApis_err _ kv hkv hpx hbad
    simp only [load_session]
    rw [herr]

/-- C8 witness: a config whose only proxy entry fails client construction
loads to the validation error; in a successful load of the default config
the httpbin proxy entry is validated and published in apis. -/
theorem session_validation_atomic_witness :
    (load_session (fun _ => false)
        (some [("proxy_bad", JVal.obj [("base_url", "https://x.example")])])
        []).1 = .error .validationError ∧
    ((fun _ => true) (JVal.obj [("base_url", "https://httpbin.org")]) = true ∧
      ∃ url, getBaseUrl (JVal.obj [("base_url", "https://httpbin.org")])
          = some url ∧
        (apiName "proxy_httpbin", url) ∈
          (⟨defaultConfig, canonicalKey defaultConfig,
            [("httpbin", "https://httpbin.org"),
             ("jupyter", "https://wagov.github.io/wasoc-jupyterlite")]⟩
            : Session).apis) :=
  ⟨(session_validation_atomic (fun _ => false)
      [("proxy_bad", JVal.obj [("base_url", "https://x.example")])] []).2.1
      ("proxy_bad", JVal.obj [("base_url", "https://x.example")])
      (by decide) (by decide) (Or.inl rfl),
   (session_validation_atomic (fun _ => true) [] defaultConfig).1
      ⟨defaultConfig, canonicalKey defaultConfig,
        [("httpbin", "https://httpbin.org"),
         ("jupyter", "https://wagov.github.io/wasoc-jupyterlite")]⟩
      rfl
      ("proxy_httpbin", JVal.obj [("base_url", "https://httpbin.org")])
      (by decide) (by decide)⟩

/-- C7 counterexample: the azcli.py cache is cacheout.Cache(maxsize=25600),
whose base class evicts in FIFO insertion order.  With the store full
(keys 0..25599 in insertion order), key 0 is read (making it the most
recently accessed entry) and a new key is inserted: the entry evicted is
exactly the just-accessed key 0, which is gone from the resulting store —
refuting the claim that every cache instantiation evicts the
least-recently-used entry and never a recently-accessed one. -/
theorem fifo_eviction_counterexample :
    cacheoutGet (fifoState azcliCacheMaxsize) 0 = some 0 ∧
    cacheoutInsert azcliCacheMaxsize (fifoState azcliCacheMaxsize)
        azcliCacheMaxsize 7
      = (fifoState azcliCacheMaxsize).drop 1 ++ [(azcliCacheMaxsize, 7)] ∧
    (fifoState azcliCacheMaxsize).head? = some (0, 0) ∧
    ((fifoState azcliCacheMaxsize).drop 1 ++ [(azcliCacheMaxsize, 7)]).find?
        (fun p : Nat × Nat => p.1 == 0) = none := by
  refine ⟨?_, ?_, ?_, ?_⟩
  · unfold cacheoutGet
    rw [fifoState_find_zero _ (by decide)]
    rfl
  · have h1 := fifoState_no_key azcliCacheMaxsize azcliCacheMaxsize
      (Nat.le_refl _)
    have h2 := fifoState_length azcliCacheMaxsize
    simp [cacheoutInsert, h1, h2]
  · exact fifoState_head _ (by decide)
  · apply List.find?_eq_none.mpr
    intro p hp
    rcases List.mem_append.mp hp with h | h
    · have hk := fifoState_drop_keys azcliCacheMaxsize p h
      simp only [beq_iff_eq]
      omega
    · simp only [List.mem_singleton] at h
      subst h
      simp [azcliCacheMaxsize]

/-- C7 (amended): the main.py caches are functools.lru_cache stores, whose
eviction is genuinely least-recently-used: after a hit on key k the store
lists k at the most-recently-used end, and inserting a new key into the
full store discards exactly the front (least recently used) entry, whose
key differs from the just-accessed k whenever the store holds at least
two entries; the azcli.py cacheout store instead evicts in FIFO insertion
order (see the counterexample), so the LRU statement holds only for the
lru_cache instantiations. -/
theorem lru_eviction_amended {V : Type} (st : List (Nat × V)) (k knew : Nat)
    (v : V) (vnew : V) (maxsize : Nat) (st2 : List (Nat × V))
    (hget : lruGet st k = (some v, st2))
    (hnew : st2.any (fun p => p.1 == knew) = false)
    (hfull : maxsize ≤ st2.length)
    (hlen : 2 ≤ st2.length) :
    lruInsert maxsize st2 knew vnew = st2.drop 1 ++ [(knew, vnew)] ∧
    ∀ p, st2.head? = some p → ¬(p.1 = k) := by
  constructor
  · simp only [lruInsert, hnew]
    rw [if_neg (by simp), if_pos hfull]
  · cases hfind : st.find? (fun p => p.1 == k) with
    | none =>
        simp only [lruGet, hfind] at hget
        simp at hget
    | some q =>
        simp only [lruGet, hfind] at hget
        rw [Prod.mk.injEq] at hget
        have hst2 : st2 = st.filter (fun r => !(r.1 == k)) ++ [q] :=
          hget.2.symm
        intro p hp hpk
        rw [hst2] at hp hlen
        cases hfil : st.filter (fun r => !(r.1 == k)) with
        | nil => rw [hfil] at hlen; simp at hlen
        | cons hd tl =>
            rw [hfil] at hp
            simp only [List.cons_append, List.head?_cons,
              Option.some.injEq] at hp
            have hmem : hd ∈ st.filter (fun r => !(r.1 == k)) := by
              rw [hfil]; exact List.mem_cons_self _ _
            have hpred := (List.mem_filter.mp hmem).2
            rw [hp] at hpred
            simp only [Bool.not_eq_eq_eq_not, Bool.not_true,
              beq_eq_false_iff_ne, ne_eq] at hpred
            exact hpred hpk

/-- C7 witness: with capacity 2, after a hit on key 1 the store lists key
1 last; inserting key 3 evicts key 2 (the least recently used), not the
just-accessed key 1. -/
theorem lru_eviction_amended_witness :
    lruInsert 2 [(2, 20), (1, 10)] 3 30 = [(1, 10), (3, 30)] ∧
    ∀ p, ([(2, 20), (1, 10)] : List (Nat × Nat)).head? = some p → ¬(p.1 = 1) :=
  lru_eviction_amended [(1, 10), (2, 20)] 1 3 10 30 2 [(2, 20), (1, 10)]
    (by decide) (by decide) (by decide) (by decide)

/-- C10: simpleQuery returns the analytics result of the first workspace
in the directory listing whose repr gives a truthy str.find(name), that
is find different from 0: the name being absent (find = -1) or occurring
anywhere past position 0 both qualify, and only a repr starting with name
(find = 0) is skipped; when no workspace qualifies, or the listing is
empty, the function returns None rather than a result sequence or an
error. -/
theorem simpleQuery_selection {α : Type} (runQ : String → String → List α)
    (query name : String) (wss : List Workspace) :
    simpleQuery runQ query name wss
      = (wss.find? (fun w => pyFind (pyRepr w) name != 0)).map
          (fun w => runQ query w.customerId) ∧
    ((∀ w ∈ wss, pyFind (pyRepr w) name = 0) →
      simpleQuery runQ query name wss = none) ∧
    (∀ w : Workspace,
      ((pyFind (pyRepr w) name != 0) = true ↔
        (pyFind (pyRepr w) name = -1 ∨ 0 < pyFind (pyRepr w) name))) ∧
    simpleQuery runQ query name [] = none := by
  refine ⟨?_, ?_, ?_, rfl⟩
  · induction wss with
    | nil => rfl
    | cons w rest ih =>
        simp only [simpleQuery, List.find?]
        cases hq : (pyFind (pyRepr w) name != 0) with
        | true => simp [hq]
        | false => simp [hq, ih]
  · intro h
    induction wss with
    | nil => rfl
    | cons w rest ih =>
        have hw : pyFind (pyRepr w) name = 0 := h w (List.mem_cons_self _ _)
        simp only [simpleQuery, hw]
        exact ih (fun w2 hw2 => h w2 (List.mem_cons_of_mem _ hw2))
  · intro w
    rcases pyFind_neg_one_or_nonneg (pyRepr w) name with hneg | hpos
    · rw [hneg]
      constructor
      · intro _; exact Or.inl rfl
      · intro _; decide
    · constructor
      · intro hne
        have : pyFind (pyRepr w) name ≠ 0 := bne_iff_ne.mp hne
        omega
      · intro hcase
        apply bne_iff_ne.mpr
        omega

/-- C10 witness: a name that is a prefix of every workspace repr (here the
literal Workspace beginning the namedtuple repr) gives find = 0 for every
listing entry, so simpleQuery returns None. -/
theorem simpleQuery_selection_witness :
    simpleQuery (fun _ _ => ([] : List Nat)) "SecurityIncident | count"
        "Workspace" [⟨"s1", "c1", "r1", "n1"⟩] = none :=
  (simpleQuery_selection (fun _ _ => ([] : List Nat))
      "SecurityIncident | count" "Workspace" [⟨"s1", "c1", "r1", "n1"⟩]).2.1
    (by decide)
